import Mathlib

/-!
# QtPlayer: frame pool, decode tick and presentation

A shallow embedding of `src/openglwidget.cpp` / `src/openglwidget.h`.

* `std::vector<FRAME>` is a `List FRAME`; `uint64_t` times are `Nat` (they are only compared).
* The demuxer, the decoder and OpenGL are external: their return values are supplied by
  a script, and the calls the program makes to them are recorded as a list of `Call`.
* Undefined behaviour of the C++ program (`back()` on an empty vector, reading through a
  null pointer or an empty `std::optional`, a `double` to `uint64_t` cast out of range)
  is an explicit exit status.
-/

namespace QtPlayer

/-! ## Data model -/

/-- The `struct FRAME` of openglwidget.h: two GL handles and a presentation time. -/
structure FRAME where
  framebuffer_ : Nat
  texture_ : Nat
  time_ : Nat
deriving DecidableEq, Repr

/-- The two member vectors `frames_` (ready) and `free_frames_` of `OpenGLWidget`. -/
structure Pool where
  frames_ : List FRAME
  free_frames_ : List FRAME
deriving DecidableEq, Repr

/-! ## The scan shared by `paintGL` (lines 305-313) and `timerEvent` (lines 370-378) -/

/-- The `for` loop over `frames_`: `cur` is `current_frame` (`none` is `frames_.end()`),
`i` the index of the iterator `frame`; the loop breaks at the first frame with
`current_time < frame->time_`. -/
def scanFrames (current_time : Nat) : List FRAME → Option Nat → Nat → Option Nat
  | [], cur, _ => cur
  | f :: fs, cur, i =>
    if current_time < f.time_ then cur else scanFrames current_time fs (some i) (i + 1)

/-- The iterator `current_frame` after the loop, as an index into `frames_`;
`none` stands for `frames_.end()`. -/
def currentFrame (current_time : Nat) (frames_ : List FRAME) : Option Nat :=
  scanFrames current_time frames_ none 0

/-- The frame `paintGL` binds and draws at clock reading `current_time` (lines 303-322);
`none` is the early `return` of line 316. -/
def paintSelect (current_time : Nat) (frames_ : List FRAME) : Option FRAME :=
  match currentFrame current_time frames_ with
  | none => none
  | some i => frames_[i]?

/-- Lines 370-385 of `timerEvent`: the reclaim run when `free_frames_` is empty.
`none` is the `return` of line 382 (`current_frame == frames_.end()`); otherwise the
frames before `current_frame` are pushed onto `free_frames_` and erased from `frames_`. -/
def reclaim (current_time : Nat) (p : Pool) : Option Pool :=
  match currentFrame current_time p.frames_ with
  | none => none
  | some i =>
    some { frames_ := p.frames_.drop i, free_frames_ := p.free_frames_ ++ p.frames_.take i }

/-! ## The timer tick (`timerEvent`, lines 332-428) -/

/-- The external calls the program makes that the development records. GL calls that
only set GL state between two recorded calls are not recorded. -/
inductive Call
  | getOpenFileName
  | avformat_open_input
  | avformat_find_stream_info
  | avcodec_find_decoder
  | avcodec_alloc_context3
  | avcodec_parameters_to_context
  | avcodec_open2
  | setFixedSize
  | critical
  | glCreateProgram
  | glGenFramebuffers
  | glGenTextures (n : Nat)
  | glGenVertexArrays
  | glGenBuffers
  | startTimer (interval : Nat)
  | update
  | av_read_frame
  | avcodec_send_packet
  | avcodec_receive_frame
  | glClear
  | glBindFramebuffer (handle : Nat)
  | glBindTexture (handle : Nat)
  | glDrawElements
  | glDeleteShader (handle : Nat)
  | glDeleteTextures (handles : List Nat)
  | glDeleteVertexArrays (handle : Nat)
  | glDeleteBuffers (handle : Nat)
  | glDeleteFramebuffers (handle : Nat)
  | avformat_free_context
  | avcodec_free_context
  | av_packet_free
  | av_frame_free
deriving DecidableEq, Repr

/-- The behaviour the C++ standard leaves undefined that the program can reach. -/
inductive Undefined
  | back_of_empty_free_frames
  | unset_video_stream
  | null_format_context
  | stream_index_out_of_range
  | cast_out_of_range
deriving DecidableEq, Repr

/-- How a modelled function stops. `threw`: the `std::runtime_error` of line 185.
`starved`: the script of external responses ran out while the function was still
running (it was about to make another external call). -/
inductive Exit
  | returned
  | undefined (what : Undefined)
  | threw
  | starved
deriving DecidableEq, Repr

/-- The value `AVERROR_EOF` of libavutil/error.h, `-MKTAG('E','O','F',' ')`. -/
def AVERROR_EOF : Int := -541478725

/-- What the libraries answer during one iteration of the outer `while` of `timerEvent`:
`ret` is the return value of `av_read_frame`, `stream_index` the value of
`av_packet_->stream_index` after that call, `send_ret` the return value of
`avcodec_send_packet` (read only if the call is made), and `images` the `av_frame_->pts`
(an `int64_t`) of the images `avcodec_receive_frame` delivers (returning 0) before it
returns nonzero. -/
structure PacketResp where
  ret : Int
  stream_index : Nat
  send_ret : Int
  images : List Int
deriving DecidableEq, Repr

/-- The pair `free_frames_.back()`, `free_frames_.pop_back()` (lines 387-388, 392-393);
`none` when the vector is empty, where `back()` is undefined. -/
def grab (free_frames_ : List FRAME) : Option (FRAME × List FRAME) :=
  match free_frames_.getLast? with
  | none => none
  | some f => some (f, free_frames_.dropLast)

/-- How the search for a free frame of lines 366-394 ends: with the frame taken (and
the pool as the search left it), with the `return` of line 382, or undefined. -/
inductive Acquired
  | frame (f : FRAME) (p : Pool)
  | gave_up
  | undefined
deriving DecidableEq, Repr

/-- Lines 366-394: take the last free frame, reclaiming first when `free_frames_` is
empty. -/
def acquireFrame (current_time : Nat) (p : Pool) : Acquired :=
  if p.free_frames_.isEmpty then
    match reclaim current_time p with
    | none => .gave_up
    | some q =>
      match grab q.free_frames_ with
      | none => .undefined
      | some (f, rest) => .frame f { frames_ := q.frames_, free_frames_ := rest }
  else
    match grab p.free_frames_ with
    | none => .undefined
    | some (f, rest) => .frame f { frames_ := p.frames_, free_frames_ := rest }

/-- Lines 395-396: the frame taken is stamped `time` and pushed onto `frames_`. -/
def publish (f : FRAME) (time : Nat) (p : Pool) : Pool :=
  { frames_ := p.frames_ ++ [{ f with time_ := time }], free_frames_ := p.free_frames_ }

/-- The state of a tick when it stops, and the calls it made, in order. -/
structure Outcome where
  exit : Exit
  pool : Pool
  calls : List Call
deriving DecidableEq, Repr

/-- Puts calls made earlier in front of the calls of an outcome. -/
def Outcome.after (cs : List Call) (o : Outcome) : Outcome :=
  { o with calls := cs ++ o.calls }

/-- How the inner `while (true)` (lines 359-426) ends: by `break`, or by leaving
`timerEvent` altogether. -/
inductive Flow
  | broke
  | left (e : Exit)
deriving DecidableEq, Repr

/-- The inner `while (true)` of lines 359-426, run on the images the decoder delivers for
the packet just sent. `stamp` is line 395 as a function of `av_frame_->pts`; it is `none`
where the cast to `uint64_t` is undefined. -/
def collectFrames (stamp : Int → Option Nat) (current_time : Nat) :
    List Int → Pool → Flow × Pool × List Call
  | [], p => (.broke, p, [.avcodec_receive_frame])
  | pts :: rest, p =>
    match acquireFrame current_time p with
    | .gave_up => (.left .returned, p, [.avcodec_receive_frame])
    | .undefined =>
      (.left (.undefined .back_of_empty_free_frames), p, [.avcodec_receive_frame])
    | .frame f q =>
      match stamp pts with
      | none => (.left (.undefined .cast_out_of_range), q, [.avcodec_receive_frame])
      | some time =>
        match collectFrames stamp current_time rest (publish f time q) with
        | (fl, r, cs) =>
          (fl, r, [.avcodec_receive_frame, .glBindFramebuffer f.framebuffer_,
                   .glDrawElements] ++ cs)

/-- The condition of the outer `while` (line 339):
`frames_.empty() || (current_time > frames_.back().time_)`. -/
def loopCondition (current_time : Nat) (frames_ : List FRAME) : Bool :=
  match frames_.getLast? with
  | none => true
  | some f => decide (current_time > f.time_)

/-- The outer `while` of `timerEvent` (lines 339-427), one `PacketResp` per iteration.
`video_stream_` is the `std::optional` member read at line 348. -/
def decodeLoop (stamp : Int → Option Nat) (video_stream_ : Option Nat) (current_time : Nat) :
    List PacketResp → Pool → Outcome
  | [], p =>
    if loopCondition current_time p.frames_ then ⟨.starved, p, []⟩ else ⟨.returned, p, []⟩
  | r :: env, p =>
    if loopCondition current_time p.frames_ then
      if r.ret ≠ 0 ∧ r.ret ≠ AVERROR_EOF then
        ⟨.returned, p, [.av_read_frame]⟩
      else
        match video_stream_ with
        | none => ⟨.undefined .unset_video_stream, p, [.av_read_frame]⟩
        | some v =>
          if r.stream_index ≠ v then
            (decodeLoop stamp video_stream_ current_time env p).after [.av_read_frame]
          else if r.send_ret ≠ 0 then
            ⟨.returned, p, [.av_read_frame, .avcodec_send_packet]⟩
          else
            match collectFrames stamp current_time r.images p with
            | (.left e, q, cs) => ⟨e, q, [.av_read_frame, .avcodec_send_packet] ++ cs⟩
            | (.broke, q, cs) =>
              (decodeLoop stamp video_stream_ current_time env q).after
                ([.av_read_frame, .avcodec_send_packet] ++ cs)
    else ⟨.returned, p, []⟩

/-- The function `OpenGLWidget::timerEvent` on the members it reads and writes:
`update()`, then the decode loop at the clock reading `current_time` of line 337. -/
def timerEvent (stamp : Int → Option Nat) (video_stream_ : Option Nat) (current_time : Nat)
    (env : List PacketResp) (p : Pool) : Outcome :=
  (decodeLoop stamp video_stream_ current_time env p).after [.update]

/-- The loop of lines 171-189 of `initializeGL` on the two vectors when every
framebuffer is complete: iteration `i` pushes onto `free_frames_` a frame with the
handles `handles i` that `glGenFramebuffers` / `glGenTextures` returned, stamped 0. -/
def initialPool (handles : Fin 5 → Nat × Nat) : Pool :=
  { frames_ := [],
    free_frames_ := (List.ofFn handles).map (fun h => ⟨h.1, h.2, 0⟩) }

/-! ## Runs: ticks and paints on the one GUI thread -/

/-- A callback of the widget together with its clock reading (lines 304, 337) and, for a
tick, the answers of the libraries during it. -/
inductive Event
  | tick (current_time : Nat) (env : List PacketResp)
  | paint (current_time : Nat)
deriving DecidableEq, Repr

/-- The clock reading of a callback. -/
def Event.clock : Event → Nat
  | .tick t _ => t
  | .paint t => t

/-- The `pts` of the images the decoder is scripted to deliver during a callback. -/
def Event.images : Event → List Int
  | .tick _ env => env.flatMap PacketResp.images
  | .paint _ => []

instance {ε α : Type} [DecidableEq ε] [DecidableEq α] : DecidableEq (Except ε α)
  | .ok a, .ok b =>
    if h : a = b then isTrue (by rw [h]) else isFalse (fun h' => h (Except.ok.inj h'))
  | .error a, .error b =>
    if h : a = b then isTrue (by rw [h]) else isFalse (fun h' => h (Except.error.inj h'))
  | .ok _, .error _ => isFalse (fun h => Except.noConfusion h)
  | .error _, .ok _ => isFalse (fun h => Except.noConfusion h)

/-- The paints of a run, each with its clock reading and the frame it selected. The
callbacks run one after the other on one thread, each once the one before it has
returned. When a tick stops without returning, the run has no defined continuation and
the result is that tick's exit. -/
def paints (stamp : Int → Option Nat) (video_stream_ : Option Nat) :
    List Event → Pool → Except Exit (List (Nat × Option FRAME))
  | [], _ => .ok []
  | .paint t :: es, p =>
    match paints stamp video_stream_ es p with
    | .ok ps => .ok ((t, paintSelect t p.frames_) :: ps)
    | .error e => .error e
  | .tick t env :: es, p =>
    match (timerEvent stamp video_stream_ t env p).exit with
    | .returned => paints stamp video_stream_ es (timerEvent stamp video_stream_ t env p).pool
    | e => .error e

/-! ## The timestamp conversion (lines 291 and 395) in IEEE 754 binary64 -/

/-- A finite non-negative `double`, held as the exact dyadic rational `a / 2 ^ k`. -/
structure Dbl where
  a : Nat
  k : Nat
deriving DecidableEq, Repr

/-- The number `⌊log₂ n⌋` for `n ≥ 1` (0 for `n = 0`), by halving at most `fuel` times. -/
def log2Fuel : Nat → Nat → Nat
  | 0, _ => 0
  | fuel + 1, n => if n < 2 then 0 else log2Fuel fuel (n / 2) + 1

/-- The position of the leading bit of `n`: `⌊log₂ n⌋`. -/
def ilog2 (n : Nat) : Nat := log2Fuel n n

/-- Rounding of `a / 2 ^ k` to a 53-bit significand, to nearest, ties to even (the
default rounding of binary64). The exponent range is not bounded: the values of lines
291 and 395 stay far inside the normal range of binary64. -/
def roundTo53 (a k : Nat) : Dbl :=
  if ilog2 a ≤ 52 then ⟨a, k⟩
  else
    let shift := ilog2 a - 52
    let q := a / 2 ^ shift
    let r := a % 2 ^ shift
    let half := 2 ^ (shift - 1)
    let q' := if r < half then q else if half < r then q + 1 else q + q % 2
    ⟨q' * 2 ^ shift, k⟩

/-- The conversion `static_cast<double>(n)` of a non-negative integer. -/
def Dbl.ofNat (n : Nat) : Dbl := roundTo53 n 0

/-- The binary64 product `x * y`. -/
def Dbl.mul (x y : Dbl) : Dbl := roundTo53 (x.a * y.a) (x.k + y.k)

/-- The binary64 quotient `x / y` for `y ≠ 0`: the quotient is taken with at least 55
bits and a sticky last bit for a nonzero remainder, then rounded to 53 bits. -/
def Dbl.div (x y : Dbl) : Dbl :=
  let A := x.a * 2 ^ y.k
  let B := y.a * 2 ^ x.k
  let t := 55 + ilog2 B
  let q := A * 2 ^ t / B
  let sticky := if A * 2 ^ t % B = 0 then q else q ||| 1
  roundTo53 sticky t

/-- The integer part `⌊x⌋`. -/
def Dbl.floor (x : Dbl) : Nat := x.a / 2 ^ x.k

/-- Line 291: `time_base_ = double(time_base.num) / double(time_base.den) * 1000.0`. -/
def timeBase (num den : Nat) : Dbl :=
  ((Dbl.ofNat num).div (Dbl.ofNat den)).mul (Dbl.ofNat 1000)

/-- Line 395: `static_cast<uint64_t>(static_cast<double>(av_frame_->pts) * time_base_)`.
The product has the sign of `pts` and the magnitude `double(|pts|) * time_base_`
(rounding to nearest is symmetric). The cast truncates toward zero and is defined only
when the truncated value is a `uint64_t`: `none` stands for the undefined cast of a
product of `2 ^ 64` or more, or of `-1` or less. -/
def presentationTime (time_base_ : Dbl) (pts : Int) : Option Nat :=
  if 0 ≤ pts then
    if ((Dbl.ofNat pts.natAbs).mul time_base_).floor < 2 ^ 64 then
      some ((Dbl.ofNat pts.natAbs).mul time_base_).floor
    else none
  else
    if ((Dbl.ofNat pts.natAbs).mul time_base_).floor = 0 then some 0 else none

/-- The stamp of line 395 in a build whose cast, where C++ leaves it undefined, stores
the value `v` (an x86-64 build stores 0 for a product of `2 ^ 64` or more). -/
def storedTime (v : Nat) (time_base_ : Dbl) (pts : Int) : Option Nat :=
  some ((presentationTime time_base_ pts).getD v)

/-! ## The widget: constructor, `initializeGL`, `paintGL`, `timerEvent`, destructor -/

/-- The value of `GL_INVALID_VALUE` (0x0501), which the constructor stores in every GL
handle (lines 21-29). -/
def GL_INVALID_VALUE : Nat := 1281

/-- What the program reads of one `AVStream`. -/
structure Stream where
  is_video : Bool
  width : Nat
  height : Nat
  time_base_num : Nat
  time_base_den : Nat
deriving DecidableEq, Repr

/-- The members of `OpenGLWidget` (openglwidget.h). `format_context_` is `none` for
`nullptr` and otherwise holds the `streams` array; `codec_context_` is `true` when the
pointer is not null. -/
structure OpenGLWidget where
  yuv_shader_program_ : Nat
  rgb_shader_program_ : Nat
  yuv_textures_ : List Nat
  yuv_vao_ : Nat
  yuv_vbo_ : Nat
  yuv_ebo_ : Nat
  rgb_vao_ : Nat
  rgb_vbo_ : Nat
  rgb_ebo_ : Nat
  frames_ : List FRAME
  free_frames_ : List FRAME
  format_context_ : Option (List Stream)
  codec_context_ : Bool
  video_stream_ : Option Nat
  time_base_ : Dbl
deriving DecidableEq, Repr

/-- The two vectors of a widget. -/
def OpenGLWidget.pool (w : OpenGLWidget) : Pool := ⟨w.frames_, w.free_frames_⟩

/-- The answers the constructor receives (lines 36-92). -/
structure SetupScript where
  filename_empty : Bool
  open_input : Int
  streams : List Stream
  find_stream_info : Int
  decoder_found : Bool
  context_allocated : Bool
  parameters_to_context : Int
  open2 : Int
deriving DecidableEq, Repr

/-- The setup step at which the constructor shows its error box and returns. -/
inductive SetupError
  | no_file_selected
  | invalid_file
  | no_stream_info
  | no_video_stream
  | no_decoder
  | allocation_failed
  | copy_failed
  | open_failed
deriving DecidableEq, Repr

/-- A constructed widget, the calls the constructor made, and the error it stopped on. -/
structure Constructed where
  widget : OpenGLWidget
  calls : List Call
  error : Option SetupError
deriving DecidableEq, Repr

/-- The member initialisers of lines 20-34. -/
def OpenGLWidget.initial : OpenGLWidget :=
  { yuv_shader_program_ := GL_INVALID_VALUE
    rgb_shader_program_ := GL_INVALID_VALUE
    yuv_textures_ := [GL_INVALID_VALUE, GL_INVALID_VALUE, GL_INVALID_VALUE]
    yuv_vao_ := GL_INVALID_VALUE
    yuv_vbo_ := GL_INVALID_VALUE
    yuv_ebo_ := GL_INVALID_VALUE
    rgb_vao_ := GL_INVALID_VALUE
    rgb_vbo_ := GL_INVALID_VALUE
    rgb_ebo_ := GL_INVALID_VALUE
    frames_ := []
    free_frames_ := []
    format_context_ := none
    codec_context_ := false
    video_stream_ := none
    time_base_ := ⟨0, 0⟩ }

/-- The constructor `OpenGLWidget::OpenGLWidget` (lines 19-92). -/
def OpenGLWidget.constructor (s : SetupScript) : Constructed :=
  let w0 := OpenGLWidget.initial
  if s.filename_empty then
    ⟨w0, [.getOpenFileName, .critical], some .no_file_selected⟩
  else if s.open_input < 0 then
    ⟨w0, [.getOpenFileName, .avformat_open_input, .critical], some .invalid_file⟩
  else
    let w1 := { w0 with format_context_ := some s.streams }
    if s.find_stream_info < 0 then
      ⟨w1, [.getOpenFileName, .avformat_open_input, .avformat_find_stream_info, .critical],
        some .no_stream_info⟩
    else
      match s.streams.findIdx? (fun st => st.is_video) with
      | none =>
        ⟨w1, [.getOpenFileName, .avformat_open_input, .avformat_find_stream_info,
              .critical], some .no_video_stream⟩
      | some v =>
        let w2 := { w1 with video_stream_ := some v }
        if !s.decoder_found then
          ⟨w2, [.getOpenFileName, .avformat_open_input, .avformat_find_stream_info,
                .avcodec_find_decoder, .critical], some .no_decoder⟩
        else if !s.context_allocated then
          ⟨w2, [.getOpenFileName, .avformat_open_input, .avformat_find_stream_info,
                .avcodec_find_decoder, .avcodec_alloc_context3, .critical],
            some .allocation_failed⟩
        else
          let w3 := { w2 with codec_context_ := true }
          if s.parameters_to_context < 0 then
            ⟨w3, [.getOpenFileName, .avformat_open_input, .avformat_find_stream_info,
                  .avcodec_find_decoder, .avcodec_alloc_context3,
                  .avcodec_parameters_to_context, .critical], some .copy_failed⟩
          else if s.open2 < 0 then
            ⟨w3, [.getOpenFileName, .avformat_open_input, .avformat_find_stream_info,
                  .avcodec_find_decoder, .avcodec_alloc_context3,
                  .avcodec_parameters_to_context, .avcodec_open2, .critical],
              some .open_failed⟩
          else
            ⟨w3, [.getOpenFileName, .avformat_open_input, .avformat_find_stream_info,
                  .avcodec_find_decoder, .avcodec_alloc_context3,
                  .avcodec_parameters_to_context, .avcodec_open2, .setFixedSize], none⟩

/-- The function `OpenGLWidget::timerEvent` on a widget. -/
def OpenGLWidget.timerEvent (w : OpenGLWidget) (current_time : Nat)
    (env : List PacketResp) : OpenGLWidget × Exit × List Call :=
  let o := QtPlayer.timerEvent (presentationTime w.time_base_) w.video_stream_
    current_time env w.pool
  ({ w with frames_ := o.pool.frames_, free_frames_ := o.pool.free_frames_ }, o.exit, o.calls)

/-- The destructor `OpenGLWidget::~OpenGLWidget` (lines 94-124). -/
def OpenGLWidget.destructor (w : OpenGLWidget) : List Call :=
  [.glDeleteShader w.yuv_shader_program_,
   .glDeleteShader w.rgb_shader_program_,
   .glDeleteTextures w.yuv_textures_,
   .glDeleteVertexArrays w.yuv_vao_,
   .glDeleteBuffers w.yuv_vbo_,
   .glDeleteBuffers w.yuv_ebo_,
   .glDeleteVertexArrays w.rgb_vao_,
   .glDeleteBuffers w.rgb_vbo_,
   .glDeleteBuffers w.rgb_ebo_] ++
  w.frames_.flatMap (fun f => [.glDeleteFramebuffers f.framebuffer_, .glDeleteTextures [f.texture_]]) ++
  w.free_frames_.flatMap (fun f => [.glDeleteFramebuffers f.framebuffer_, .glDeleteTextures [f.texture_]]) ++
  [.avformat_free_context, .avcodec_free_context, .av_packet_free, .av_frame_free]

/-! ## Vocabulary of the statements -/

/-- A frame whose time has been reached at the clock reading `now`. -/
def due (now : Nat) (f : FRAME) : Bool := decide (f.time_ ≤ now)

/-- The ready sequence is in ascending order of time. -/
def Ascending (frames_ : List FRAME) : Prop :=
  frames_.Pairwise (fun a b => a.time_ ≤ b.time_)

instance (frames_ : List FRAME) : Decidable (Ascending frames_) := by
  unfold Ascending; infer_instance

/-- The GL handles that identify a slot (its time is overwritten when it is reused). -/
def FRAME.handles (f : FRAME) : Nat × Nat := (f.framebuffer_, f.texture_)

/-- The handles of all the slots of a pool, the ready ones first. -/
def Pool.handles (p : Pool) : List (Nat × Nat) :=
  (p.frames_ ++ p.free_frames_).map FRAME.handles

/-- The pool at the end of a run in which every tick returned; otherwise the exit of the
tick that did not return. -/
def poolAfter (stamp : Int → Option Nat) (video_stream_ : Option Nat) :
    List Event → Pool → Except Exit Pool
  | [], p => .ok p
  | .paint _ :: es, p => poolAfter stamp video_stream_ es p
  | .tick t env :: es, p =>
    match (timerEvent stamp video_stream_ t env p).exit with
    | .returned =>
      poolAfter stamp video_stream_ es (timerEvent stamp video_stream_ t env p).pool
    | e => .error e

/-- Some ready frame has a time between `L` and `now` (nothing is asked for `L = 0`). -/
def Floor (L now : Nat) (frames_ : List FRAME) : Prop :=
  L = 0 ∨ ∃ f ∈ frames_, L ≤ f.time_ ∧ f.time_ ≤ now

/-- The ready sequence is ascending, holds a frame timed between `L` and `now`, and no
ready frame is later than a stamp of `S` (the stamps still to come). -/
def Within (L now : Nat) (S : List Nat) (p : Pool) : Prop :=
  Ascending p.frames_ ∧ Floor L now p.frames_ ∧ ∀ f ∈ p.frames_, ∀ t ∈ S, f.time_ ≤ t

/-- A sample run of a 25 fps stream (time base 1/25, so `pts` n is stamped 40 n ms):
seven images are decoded over four ticks, the last of which reclaims four frames, and
four paints run in between. -/
def sampleRun : List Event :=
  [.tick 0 [⟨0, 0, 0, [0]⟩], .paint 5,
   .tick 16 [⟨0, 0, 0, [1]⟩], .paint 20,
   .tick 48 [⟨0, 0, 0, [2]⟩], .paint 50,
   .tick 240 [⟨0, 0, 0, [3]⟩, ⟨0, 0, 0, [4]⟩, ⟨0, 0, 0, [5]⟩, ⟨0, 0, 0, [6]⟩],
   .paint 250]

/-- A run of a stream with time base 1/1 (`pts` n is stamped 1000 n ms) whose second
image has the native timestamp `2 * 10 ^ 16`: its product with `time_base_` is
`2 * 10 ^ 19`, above `2 ^ 64`. The second tick ends on a read error (`-5`). -/
def overflowRun : List Event :=
  [.tick 1000 [⟨0, 0, 0, [1]⟩], .paint 1000,
   .tick 1001 [⟨0, 0, 0, [20000000000000000]⟩, ⟨-5, 0, 0, []⟩], .paint 1001]

/-- A run of a 25 fps stream in which the second tick receives five images at once
(stamped 40 to 200 ms) while only the oldest ready frame is due. -/
def exhaustedRun : List Event :=
  [.tick 0 [⟨0, 0, 0, [0]⟩], .paint 5,
   .tick 16 [⟨0, 0, 0, [1, 2, 3, 4, 5]⟩], .paint 20]

/-! ## The scan -/

theorem scanFrames_eq (now : Nat) (fs : List FRAME) (cur : Option Nat) (i : Nat) :
    scanFrames now fs cur i =
      match (fs.takeWhile (due now)).length with
      | 0 => cur
      | k + 1 => some (i + k) := by
  induction fs generalizing cur i with
  | nil => simp [scanFrames]
  | cons f fs ih =>
    unfold scanFrames
    by_cases h : now < f.time_
    · have hd : due now f = false := by simp [due, h]
      simp [h, List.takeWhile_cons, hd]
    · have hd : due now f = true := by simp [due]; omega
      simp only [h, if_false, List.takeWhile_cons, hd, if_true, List.length_cons]
      rw [ih]
      cases hk : (List.takeWhile (due now) fs).length with
      | zero => simp
      | succ k => simp; omega

theorem currentFrame_eq (now : Nat) (fs : List FRAME) :
    currentFrame now fs =
      match (fs.takeWhile (due now)).length with
      | 0 => none
      | k + 1 => some k := by
  unfold currentFrame
  rw [scanFrames_eq]
  cases (List.takeWhile (due now) fs).length <;> simp

theorem takeWhile_due_eq_filter (now : Nat) (fs : List FRAME) (h : Ascending fs) :
    fs.takeWhile (due now) = fs.filter (due now) := by
  induction fs with
  | nil => rfl
  | cons f fs ih =>
    have ht : Ascending fs := (List.pairwise_cons.mp h).2
    by_cases hd : due now f = true
    · simp [List.takeWhile_cons, List.filter_cons, hd, ih ht]
    · have hall : ∀ g ∈ fs, due now g = false := by
        intro g hg
        have := (List.pairwise_cons.mp h).1 g hg
        simp [due] at hd ⊢
        omega
      have hf : fs.filter (due now) = [] := by
        rw [List.filter_eq_nil_iff]
        intro g hg
        simp [hall g hg]
      simp [List.takeWhile_cons, List.filter_cons, hd, hf]

theorem getElem?_pred_length_takeWhile (q : FRAME → Bool) (fs : List FRAME) (k : Nat)
    (hk : (fs.takeWhile q).length = k + 1) :
    fs[k]? = (fs.takeWhile q).getLast? := by
  have hsplit : fs = fs.takeWhile q ++ fs.dropWhile q := (List.takeWhile_append_dropWhile q fs).symm
  have h1 : fs[k]? = (fs.takeWhile q ++ fs.dropWhile q)[k]? := by rw [← hsplit]
  rw [h1, List.getElem?_append_left (by omega), List.getLast?_eq_getElem?, hk]
  simp

theorem take_pred_length_takeWhile (q : FRAME → Bool) (fs : List FRAME) (k : Nat)
    (hk : (fs.takeWhile q).length = k + 1) :
    fs.take k = (fs.takeWhile q).dropLast := by
  have hsplit : fs = fs.takeWhile q ++ fs.dropWhile q := (List.takeWhile_append_dropWhile q fs).symm
  have h1 : fs.take k = (fs.takeWhile q ++ fs.dropWhile q).take k := by rw [← hsplit]
  rw [h1, List.take_append_of_le_length (by omega), List.dropLast_eq_take, hk]
  simp

theorem paintSelect_eq (now : Nat) (fs : List FRAME) :
    paintSelect now fs = (fs.takeWhile (due now)).getLast? := by
  unfold paintSelect
  rw [currentFrame_eq]
  cases hk : (List.takeWhile (due now) fs).length with
  | zero =>
    have : List.takeWhile (due now) fs = [] := List.length_eq_zero.mp hk
    simp [this]
  | succ k =>
    simp only []
    exact getElem?_pred_length_takeWhile (due now) fs k hk

/-! ## Presentation selection and reclamation -/

/-- C4 (presentation selection). For a ready sequence in ascending order of time and any
clock reading `now`, the frame `paintGL` selects is the last ready frame whose time is
`≤ now`; and it selects no frame exactly when the ready sequence is empty or its first
(earliest) frame has a time `> now`. -/
theorem paintGL_selects_latest_due (now : Nat) (frames_ : List FRAME)
    (h : Ascending frames_) :
    paintSelect now frames_ = (frames_.filter (due now)).getLast? ∧
    (paintSelect now frames_ = none ↔
      frames_ = [] ∨ ∃ f, frames_.head? = some f ∧ now < f.time_) := by
  refine ⟨by rw [paintSelect_eq, takeWhile_due_eq_filter now frames_ h], ?_⟩
  rw [paintSelect_eq]
  cases frames_ with
  | nil => simp
  | cons f fs =>
    by_cases hd : now < f.time_
    · have : due now f = false := by simp [due, hd]
      simp [List.takeWhile_cons, this, hd]
    · have hdue : due now f = true := by simp [due]; omega
      simp only [List.takeWhile_cons, hdue, if_true, List.head?_cons, Option.some.injEq,
        exists_eq_left', hd, or_false, reduceCtorEq, iff_false]
      rw [List.getLast?_eq_getLast _ (List.cons_ne_nil _ _)]
      simp

/-- Witness of C4: ready times `[20, 30]`; `now = 25` selects the frame timed 20 and
`now = 15` selects none. -/
theorem paintGL_selects_latest_due_witness :
    Ascending [⟨1, 11, 20⟩, ⟨2, 12, 30⟩] ∧
    paintSelect 25 [⟨1, 11, 20⟩, ⟨2, 12, 30⟩] = some ⟨1, 11, 20⟩ ∧
    paintSelect 15 [⟨1, 11, 20⟩, ⟨2, 12, 30⟩] = none :=
  ⟨by decide,
   by rw [(paintGL_selects_latest_due 25 [⟨1, 11, 20⟩, ⟨2, 12, 30⟩] (by decide)).1]; decide,
   (paintGL_selects_latest_due 15 [⟨1, 11, 20⟩, ⟨2, 12, 30⟩] (by decide)).2.mpr
     (Or.inr ⟨⟨1, 11, 20⟩, rfl, by decide⟩)⟩

/-- C3 (reclamation correctness). For a ready sequence in ascending order of time: if
some ready frame has a time `≤ now`, the reclaim of `timerEvent` appends to the free
sequence exactly the ready frames with time `≤ now` other than the last of them, in
order, and leaves as ready the rest of the sequence, which begins at that last frame;
if no ready frame has a time `≤ now`, the reclaim stops at the `return` of line 382 and
moves nothing. -/
theorem reclaim_correct (now : Nat) (p : Pool) (h : Ascending p.frames_) :
    ((∃ f ∈ p.frames_, f.time_ ≤ now) →
      ∃ q, reclaim now p = some q ∧
        q.free_frames_ = p.free_frames_ ++ (p.frames_.filter (due now)).dropLast ∧
        p.frames_ = (p.frames_.filter (due now)).dropLast ++ q.frames_ ∧
        q.frames_.head? = (p.frames_.filter (due now)).getLast?) ∧
    ((∀ f ∈ p.frames_, now < f.time_) → reclaim now p = none) := by
  have hf := takeWhile_due_eq_filter now p.frames_ h
  constructor
  · rintro ⟨f, hmem, hle⟩
    have hne : p.frames_.filter (due now) ≠ [] := by
      intro hnil
      rw [List.filter_eq_nil_iff] at hnil
      exact hnil f hmem (by simp [due, hle])
    unfold reclaim
    rw [currentFrame_eq]
    cases hk : (List.takeWhile (due now) p.frames_).length with
    | zero =>
      have : List.takeWhile (due now) p.frames_ = [] := List.length_eq_zero.mp hk
      rw [hf] at this
      exact absurd this hne
    | succ k =>
      have htake := take_pred_length_takeWhile (due now) p.frames_ k hk
      have hget := getElem?_pred_length_takeWhile (due now) p.frames_ k hk
      rw [hf] at htake hget
      refine ⟨_, rfl, ?_, ?_, ?_⟩
      · simp [htake]
      · simp only []
        rw [← htake]
        exact (List.take_append_drop k p.frames_).symm
      · simp only []
        rw [← hget, List.head?_drop]
  · intro hall
    unfold reclaim
    rw [currentFrame_eq]
    have : List.takeWhile (due now) p.frames_ = [] := by
      rw [hf, List.filter_eq_nil_iff]
      intro g hg
      have := hall g hg
      simp [due]
      omega
    simp [this]

/-- Witness of C3: ready times `[10, 20, 30]` and `now = 25`; only the frame timed 10 is
freed and `[20, 30]` stays ready. -/
theorem reclaim_correct_witness :
    Ascending (Pool.mk [⟨1, 11, 10⟩, ⟨2, 12, 20⟩, ⟨3, 13, 30⟩] []).frames_ ∧
    (∃ f ∈ (Pool.mk [⟨1, 11, 10⟩, ⟨2, 12, 20⟩, ⟨3, 13, 30⟩] []).frames_, f.time_ ≤ 25) ∧
    reclaim 25 ⟨[⟨1, 11, 10⟩, ⟨2, 12, 20⟩, ⟨3, 13, 30⟩], []⟩
      = some ⟨[⟨2, 12, 20⟩, ⟨3, 13, 30⟩], [⟨1, 11, 10⟩]⟩ :=
  ⟨by decide, ⟨⟨1, 11, 10⟩, by decide, by decide⟩, by
    obtain ⟨⟨qf, qfree⟩, hq, hfree, hsplit, _⟩ :=
      (reclaim_correct 25 ⟨[⟨1, 11, 10⟩, ⟨2, 12, 20⟩, ⟨3, 13, 30⟩], []⟩ (by decide)).1
        ⟨⟨1, 11, 10⟩, by decide, by decide⟩
    rw [hq]
    simp [due, List.filter_cons] at hfree hsplit
    rw [hfree, ← hsplit]⟩


/-! ## The decode loop -/

theorem loopCondition_iff (now : Nat) (fs : List FRAME) :
    loopCondition now fs = true ↔
      fs = [] ∨ ∃ f, fs.getLast? = some f ∧ f.time_ < now := by
  unfold loopCondition
  cases h : fs.getLast? with
  | none => simp [List.getLast?_eq_none_iff.mp h]
  | some f =>
    have : fs ≠ [] := by
      intro hnil
      simp [hnil] at h
    simp [this]

/-- C10, as stated, fails: from the initial pool, a tick at clock reading 10 stores an
image stamped 10; the newest ready time then equals `now`, and the loop, evaluated
again with a further packet on offer, returns without reading it. -/
theorem decode_at_equal_time_counterexample :
    timerEvent (presentationTime (timeBase 1 1000)) (some 0) 10
        [⟨0, 0, 0, [10]⟩, ⟨0, 0, 0, [50]⟩] (initialPool (fun i => (i.val + 1, i.val + 11)))
      = ⟨.returned,
         ⟨[⟨5, 15, 10⟩], [⟨1, 11, 0⟩, ⟨2, 12, 0⟩, ⟨3, 13, 0⟩, ⟨4, 14, 0⟩]⟩,
         [.update, .av_read_frame, .avcodec_send_packet, .avcodec_receive_frame,
          .glBindFramebuffer 5, .glDrawElements, .avcodec_receive_frame]⟩ ∧
    decodeLoop (presentationTime (timeBase 1 1000)) (some 0) 10 [⟨0, 0, 0, [50]⟩]
        ⟨[⟨5, 15, 10⟩], [⟨1, 11, 0⟩, ⟨2, 12, 0⟩, ⟨3, 13, 0⟩, ⟨4, 14, 0⟩]⟩
      = ⟨.returned,
         ⟨[⟨5, 15, 10⟩], [⟨1, 11, 0⟩, ⟨2, 12, 0⟩, ⟨3, 13, 0⟩, ⟨4, 14, 0⟩]⟩, []⟩ := by
  constructor <;> decide

/-- C10 (amended). At every evaluation of the decode loop with a packet on offer, a
decode step is performed (the loop reads a packet) if and only if the ready sequence is
empty or the time of its newest (last) entry is strictly less than `now`; otherwise,
in particular when the newest ready time equals `now`, the tick returns at once with
the pool unchanged. -/
theorem decode_step_iff_behind (stamp : Int → Option Nat) (video_stream_ : Option Nat)
    (now : Nat) (r : PacketResp) (env : List PacketResp) (p : Pool) :
    ((decodeLoop stamp video_stream_ now (r :: env) p).calls.head? = some .av_read_frame ↔
      (p.frames_ = [] ∨ ∃ f, p.frames_.getLast? = some f ∧ f.time_ < now)) ∧
    (¬ (p.frames_ = [] ∨ ∃ f, p.frames_.getLast? = some f ∧ f.time_ < now) →
      decodeLoop stamp video_stream_ now (r :: env) p = ⟨.returned, p, []⟩) := by
  rw [← loopCondition_iff]
  unfold decodeLoop
  by_cases hc : loopCondition now p.frames_ = true
  · simp only [hc, if_true, true_iff, not_true_eq_false, false_implies, and_true]
    repeat' split
    all_goals simp [Outcome.after]
  · simp [hc]

/-- C7, as stated, fails: from the initial pool, a tick whose packet read reports
end-of-stream goes on to submit the packet to the decoder, receives an image and
publishes it in a frame. -/
theorem end_of_stream_counterexample :
    timerEvent (presentationTime (timeBase 1 1000)) (some 0) 0
        [⟨AVERROR_EOF, 0, 0, [0]⟩] (initialPool (fun i => (i.val + 1, i.val + 11)))
      = ⟨.returned,
         ⟨[⟨5, 15, 0⟩], [⟨1, 11, 0⟩, ⟨2, 12, 0⟩, ⟨3, 13, 0⟩, ⟨4, 14, 0⟩]⟩,
         [.update, .av_read_frame, .avcodec_send_packet, .avcodec_receive_frame,
          .glBindFramebuffer 5, .glDrawElements, .avcodec_receive_frame]⟩ := by
  decide

/-- C7 (amended). When the loop is entered and reading the next packet reports an error
other than end-of-stream, the tick returns at once: nothing is submitted to the decoder,
nothing is received or published, and both frame sequences are unchanged. End-of-stream
is exempted from that return (line 342): the tick then proceeds exactly as after a
successful read. -/
theorem read_error_returns_eof_proceeds (stamp : Int → Option Nat) (video_stream_ : Option Nat)
    (now : Nat) (r : PacketResp) (env : List PacketResp) (p : Pool)
    (hloop : loopCondition now p.frames_ = true) :
    (r.ret ≠ 0 → r.ret ≠ AVERROR_EOF →
      timerEvent stamp video_stream_ now (r :: env) p
        = ⟨.returned, p, [.update, .av_read_frame]⟩) ∧
    (r.ret = AVERROR_EOF →
      timerEvent stamp video_stream_ now (r :: env) p
        = timerEvent stamp video_stream_ now ({ r with ret := 0 } :: env) p) := by
  constructor
  · intro h0 he
    simp [timerEvent, decodeLoop, hloop, h0, he, Outcome.after]
  · intro he
    simp [timerEvent, decodeLoop, hloop, he]

/-- Witness of C7 (amended): from the initial pool, a read error (`-5`) returns at once
with the pool untouched, and an end-of-stream read gives the tick of a successful one. -/
theorem read_error_returns_eof_proceeds_witness :
    loopCondition 0 (initialPool (fun i => (i.val + 1, i.val + 11))).frames_ = true ∧
    timerEvent (presentationTime (timeBase 1 1000)) (some 0) 0 [⟨-5, 0, 0, [0]⟩]
        (initialPool (fun i => (i.val + 1, i.val + 11)))
      = ⟨.returned, initialPool (fun i => (i.val + 1, i.val + 11)),
         [.update, .av_read_frame]⟩ ∧
    timerEvent (presentationTime (timeBase 1 1000)) (some 0) 0 [⟨AVERROR_EOF, 0, 0, [0]⟩]
        (initialPool (fun i => (i.val + 1, i.val + 11)))
      = timerEvent (presentationTime (timeBase 1 1000)) (some 0) 0 [⟨0, 0, 0, [0]⟩]
        (initialPool (fun i => (i.val + 1, i.val + 11))) :=
  ⟨by decide,
   (read_error_returns_eof_proceeds _ (some 0) 0 ⟨-5, 0, 0, [0]⟩ [] _ (by decide)).1
     (by decide) (by decide),
   (read_error_returns_eof_proceeds _ (some 0) 0 ⟨AVERROR_EOF, 0, 0, [0]⟩ [] _
     (by decide)).2 rfl⟩

/-- C1: the code breaks the pool invariant. A 25 fps clip of six frames whose decoder
delivers nothing until it is drained: in the first tick (clock reading 0) six packets
are read and sent, the seventh read reports end-of-stream, and the drain delivers six
images stamped 0 to 200. Five fill the five slots; for the sixth only the oldest ready
frame is due, and the tick reaches `free_frames_.back()` on the empty free sequence. -/
theorem pool_invariant_broken_by_empty_back :
    (timerEvent (presentationTime (timeBase 1 25)) (some 0) 0
        [⟨0, 0, 0, []⟩, ⟨0, 0, 0, []⟩, ⟨0, 0, 0, []⟩, ⟨0, 0, 0, []⟩, ⟨0, 0, 0, []⟩,
         ⟨0, 0, 0, []⟩, ⟨AVERROR_EOF, 0, 0, [0, 1, 2, 3, 4, 5]⟩]
        (initialPool (fun i => (i.val + 1, i.val + 11)))).exit
      = .undefined .back_of_empty_free_frames ∧
    (timerEvent (presentationTime (timeBase 1 25)) (some 0) 0
        [⟨0, 0, 0, []⟩, ⟨0, 0, 0, []⟩, ⟨0, 0, 0, []⟩, ⟨0, 0, 0, []⟩, ⟨0, 0, 0, []⟩,
         ⟨0, 0, 0, []⟩, ⟨AVERROR_EOF, 0, 0, [0, 1, 2, 3, 4, 5]⟩]
        (initialPool (fun i => (i.val + 1, i.val + 11)))).pool
      = ⟨[⟨5, 15, 0⟩, ⟨4, 14, 40⟩, ⟨3, 13, 80⟩, ⟨2, 12, 120⟩, ⟨1, 11, 160⟩], []⟩ := by
  constructor <;> decide

/-- C2: the code does not give up when the only due ready frame is the oldest one.
A first tick at clock reading 0 publishes an image stamped 0; in a second tick at clock
reading 16 the decoder delivers five images stamped 40 to 200: four take the free
frames, and for the fifth the reclaim finds `current_frame == frames_.begin()`, frees
nothing, does not return, and takes `free_frames_.back()` of the empty free sequence. -/
theorem no_give_up_when_only_oldest_due :
    timerEvent (presentationTime (timeBase 1 25)) (some 0) 0 [⟨0, 0, 0, [0]⟩]
        (initialPool (fun i => (i.val + 1, i.val + 11)))
      = ⟨.returned,
         ⟨[⟨5, 15, 0⟩], [⟨1, 11, 0⟩, ⟨2, 12, 0⟩, ⟨3, 13, 0⟩, ⟨4, 14, 0⟩]⟩,
         [.update, .av_read_frame, .avcodec_send_packet, .avcodec_receive_frame,
          .glBindFramebuffer 5, .glDrawElements, .avcodec_receive_frame]⟩ ∧
    reclaim 16 ⟨[⟨5, 15, 0⟩, ⟨4, 14, 40⟩, ⟨3, 13, 80⟩, ⟨2, 12, 120⟩, ⟨1, 11, 160⟩], []⟩
      = some ⟨[⟨5, 15, 0⟩, ⟨4, 14, 40⟩, ⟨3, 13, 80⟩, ⟨2, 12, 120⟩, ⟨1, 11, 160⟩], []⟩ ∧
    timerEvent (presentationTime (timeBase 1 25)) (some 0) 16
        [⟨0, 0, 0, [1, 2, 3, 4, 5]⟩]
        ⟨[⟨5, 15, 0⟩], [⟨1, 11, 0⟩, ⟨2, 12, 0⟩, ⟨3, 13, 0⟩, ⟨4, 14, 0⟩]⟩
      = ⟨.undefined .back_of_empty_free_frames,
         ⟨[⟨5, 15, 0⟩, ⟨4, 14, 40⟩, ⟨3, 13, 80⟩, ⟨2, 12, 120⟩, ⟨1, 11, 160⟩], []⟩,
         [.update, .av_read_frame, .avcodec_send_packet,
          .avcodec_receive_frame, .glBindFramebuffer 4, .glDrawElements,
          .avcodec_receive_frame, .glBindFramebuffer 3, .glDrawElements,
          .avcodec_receive_frame, .glBindFramebuffer 2, .glDrawElements,
          .avcodec_receive_frame, .glBindFramebuffer 1, .glDrawElements,
          .avcodec_receive_frame]⟩ := by
  refine ⟨by decide, by decide, by decide⟩

/-! ## The timestamp conversion -/

theorem log2Fuel_eq_log2 (fuel n : Nat) (h : n ≤ fuel) : log2Fuel fuel n = Nat.log2 n := by
  induction fuel generalizing n with
  | zero =>
    have : n = 0 := by omega
    subst this
    simp [log2Fuel, Nat.log2]
  | succ fuel ih =>
    unfold log2Fuel
    rw [Nat.log2]
    by_cases h2 : n < 2
    · have : ¬ n ≥ 2 := by omega
      simp [h2, this]
    · have h3 : n ≥ 2 := by omega
      have h4 : n / 2 ≤ fuel := by omega
      simp [h2, h3, ih (n / 2) h4]

/-- The leading-bit position used by the rounding is `Nat.log2`. -/
theorem ilog2_eq_log2 (n : Nat) : ilog2 n = Nat.log2 n :=
  log2Fuel_eq_log2 n n (Nat.le_refl n)

theorem log2Fuel_le (fuel n m : Nat) (h : n < 2 ^ (m + 1)) : log2Fuel fuel n ≤ m := by
  induction fuel generalizing n m with
  | zero => simp [log2Fuel]
  | succ fuel ih =>
    unfold log2Fuel
    by_cases h2 : n < 2
    · simp [h2]
    · simp only [h2, if_false]
      cases m with
      | zero => simp at h; omega
      | succ m =>
        have : n / 2 < 2 ^ (m + 1) := by
          rw [Nat.div_lt_iff_lt_mul (by norm_num)]
          calc n < 2 ^ (m + 1 + 1) := h
            _ = 2 ^ (m + 1) * 2 := by rw [pow_succ]
        have := ih (n / 2) m this
        omega

theorem ilog2_le (n m : Nat) (h : n < 2 ^ (m + 1)) : ilog2 n ≤ m :=
  log2Fuel_le n n m h

theorem roundTo53_k (a k : Nat) : (roundTo53 a k).k = k := by
  unfold roundTo53
  split <;> rfl

/-- A value whose significand fits in 53 bits is not changed by the rounding. -/
theorem roundTo53_exact (N j k : Nat) (hN : N < 2 ^ 53) :
    roundTo53 (N * 2 ^ j) k = ⟨N * 2 ^ j, k⟩ := by
  unfold roundTo53
  by_cases hl : ilog2 (N * 2 ^ j) ≤ 52
  · simp [hl]
  · simp only [hl, if_false]
    have hlt : N * 2 ^ j < 2 ^ (52 + j + 1) := by
      have : 2 ^ (52 + j + 1) = 2 ^ 53 * 2 ^ j := by rw [← pow_add]; congr 1; omega
      rw [this]
      exact Nat.mul_lt_mul_of_lt_of_le hN (Nat.le_refl _) (by positivity)
    have hle := ilog2_le _ _ hlt
    have hdvd : 2 ^ (ilog2 (N * 2 ^ j) - 52) ∣ N * 2 ^ j :=
      Dvd.dvd.mul_left (pow_dvd_pow 2 (by omega)) N
    have hr : N * 2 ^ j % 2 ^ (ilog2 (N * 2 ^ j) - 52) = 0 := Nat.mod_eq_zero_of_dvd hdvd
    have hhalf : 0 < 2 ^ (ilog2 (N * 2 ^ j) - 52 - 1) := by positivity
    simp only [hr, hhalf, if_true]
    rw [Nat.div_mul_cancel hdvd]

/-- When `time_base_` holds the whole number `s` and `p * s` is below `2 ^ 53`, the
product of line 395 is exactly `p * s`. -/
theorem floor_mul_whole (tb : Dbl) (s p : Nat) (htb : tb.a = s * 2 ^ tb.k)
    (hp : p * s < 2 ^ 53) : ((Dbl.ofNat p).mul tb).floor = p * s := by
  unfold Dbl.mul Dbl.floor
  rcases Nat.eq_zero_or_pos s with hs | hs
  · subst hs
    have ha : tb.a = 0 := by simpa using htb
    have h0 := roundTo53_exact 0 0 ((Dbl.ofNat p).k + tb.k) (by norm_num)
    simp only [Nat.zero_mul] at h0
    simp [ha, h0]
  · have hpl : p < 2 ^ 53 := lt_of_le_of_lt (Nat.le_mul_of_pos_right p hs) hp
    have hof : Dbl.ofNat p = ⟨p, 0⟩ := by
      have := roundTo53_exact p 0 0 hpl
      simpa [Dbl.ofNat] using this
    have hmul : p * tb.a = (p * s) * 2 ^ tb.k := by rw [htb, Nat.mul_assoc]
    rw [hof]
    simp only [hmul, Nat.zero_add]
    rw [roundTo53_exact (p * s) tb.k tb.k hp]
    exact Nat.mul_div_cancel _ (by positivity)

/-- Under the same conditions the cast of line 395 is defined and the stamp is `p * s`. -/
theorem presentationTime_whole (tb : Dbl) (s p : Nat) (htb : tb.a = s * 2 ^ tb.k)
    (hp : p * s < 2 ^ 53) : presentationTime tb (p : Int) = some (p * s) := by
  have hfl := floor_mul_whole tb s p htb hp
  have h64 : p * s < 2 ^ 64 := lt_trans hp (by norm_num)
  unfold presentationTime
  simp only [Int.natAbs_ofNat, Int.ofNat_nonneg, if_true, hfl, h64]

theorem ilog2_mono (a b : Nat) (ha : a ≠ 0) (hab : a ≤ b) : ilog2 a ≤ ilog2 b := by
  rw [ilog2_eq_log2, ilog2_eq_log2]
  have hb : b ≠ 0 := by omega
  exact (Nat.le_log2 hb).2 (le_trans (Nat.log2_self_le ha) hab)

theorem ilog2_large (a : Nat) (h : 2 ^ 53 ≤ a) : 53 ≤ ilog2 a := by
  rw [ilog2_eq_log2]
  have ha : a ≠ 0 := by
    have : 0 < 2 ^ 53 := by positivity
    omega
  exact (Nat.le_log2 ha).2 h

theorem ilog2_small (a : Nat) (h : a < 2 ^ 53) : ilog2 a ≤ 52 := ilog2_le a 52 h

/-- Rounding to nearest on a grid of step `P` is monotone. -/
theorem nearest_mono (P half a b : Nat) (hab : a ≤ b) :
    (if a % P < half then a / P else if half < a % P then a / P + 1
      else a / P + a / P % 2) * P ≤
    (if b % P < half then b / P else if half < b % P then b / P + 1
      else b / P + b / P % 2) * P := by
  have hq : a / P ≤ b / P := Nat.div_le_div_right hab
  rcases Nat.lt_or_eq_of_le hq with hlt | heq
  · have h1 : (if a % P < half then a / P else if half < a % P then a / P + 1
        else a / P + a / P % 2) ≤ a / P + 1 := by
      split_ifs <;> omega
    have h2 : b / P ≤ (if b % P < half then b / P else if half < b % P then b / P + 1
        else b / P + b / P % 2) := by
      split_ifs <;> omega
    exact Nat.mul_le_mul_right P (by omega)
  · have hr : a % P ≤ b % P := by
      have h1 := Nat.div_add_mod a P
      have h2 := Nat.div_add_mod b P
      rw [heq] at h1
      omega
    apply Nat.mul_le_mul_right
    rw [heq]
    split_ifs <;> omega

theorem roundTo53_a_small (a k : Nat) (h : a < 2 ^ 53) : (roundTo53 a k).a = a := by
  have := roundTo53_exact a 0 k h
  simp at this
  rw [this]

theorem roundTo53_a_large (a k : Nat) (h : 2 ^ 53 ≤ a) :
    (roundTo53 a k).a =
      (if a % 2 ^ (ilog2 a - 52) < 2 ^ (ilog2 a - 52 - 1) then a / 2 ^ (ilog2 a - 52)
        else if 2 ^ (ilog2 a - 52 - 1) < a % 2 ^ (ilog2 a - 52) then
          a / 2 ^ (ilog2 a - 52) + 1
        else a / 2 ^ (ilog2 a - 52) + a / 2 ^ (ilog2 a - 52) % 2) * 2 ^ (ilog2 a - 52) := by
  have := ilog2_large a h
  unfold roundTo53
  have hl : ¬ ilog2 a ≤ 52 := by omega
  simp only [hl, if_false]

theorem roundTo53_a_bounds (a k : Nat) (h : 2 ^ 53 ≤ a) :
    2 ^ ilog2 a ≤ (roundTo53 a k).a ∧ (roundTo53 a k).a ≤ 2 ^ (ilog2 a + 1) := by
  have he := ilog2_large a h
  have ha : a ≠ 0 := by
    have : 0 < 2 ^ 53 := by positivity
    omega
  have hlo : 2 ^ ilog2 a ≤ a := by rw [ilog2_eq_log2]; exact Nat.log2_self_le ha
  have hhi : a < 2 ^ (ilog2 a + 1) := by rw [ilog2_eq_log2]; exact Nat.lt_log2_self
  have hP : 0 < 2 ^ (ilog2 a - 52) := by positivity
  have hsplit : 2 ^ ilog2 a = 2 ^ 52 * 2 ^ (ilog2 a - 52) := by
    rw [← pow_add]; congr 1; omega
  have hsplit' : 2 ^ (ilog2 a + 1) = 2 ^ 53 * 2 ^ (ilog2 a - 52) := by
    rw [← pow_add]; congr 1; omega
  have hq1 : 2 ^ 52 ≤ a / 2 ^ (ilog2 a - 52) := by
    rw [Nat.le_div_iff_mul_le hP, ← hsplit]; exact hlo
  have hq2 : a / 2 ^ (ilog2 a - 52) < 2 ^ 53 := by
    rw [Nat.div_lt_iff_lt_mul hP, ← hsplit']; exact hhi
  rw [roundTo53_a_large a k h, hsplit, hsplit']
  constructor
  · apply Nat.mul_le_mul_right
    split_ifs <;> omega
  · apply Nat.mul_le_mul_right
    split_ifs <;> omega

/-- Rounding to binary64 is monotone. -/
theorem roundTo53_mono (a b k k' : Nat) (hab : a ≤ b) :
    (roundTo53 a k).a ≤ (roundTo53 b k').a := by
  by_cases hb : b < 2 ^ 53
  · rw [roundTo53_a_small a k (by omega), roundTo53_a_small b k' hb]
    exact hab
  · have hb' : 2 ^ 53 ≤ b := by omega
    by_cases ha : a < 2 ^ 53
    · rw [roundTo53_a_small a k ha]
      have h1 := (roundTo53_a_bounds b k' hb').1
      have h2 : 2 ^ 53 ≤ 2 ^ ilog2 b := Nat.pow_le_pow_right (by norm_num) (ilog2_large b hb')
      omega
    · have ha' : 2 ^ 53 ≤ a := by omega
      have hne : a ≠ 0 := by
        have : 0 < 2 ^ 53 := by positivity
        omega
      rcases Nat.lt_or_eq_of_le (ilog2_mono a b hne hab) with hlt | heq
      · have h1 := (roundTo53_a_bounds a k ha').2
        have h2 := (roundTo53_a_bounds b k' hb').1
        have h3 : 2 ^ (ilog2 a + 1) ≤ 2 ^ ilog2 b := Nat.pow_le_pow_right (by norm_num) hlt
        omega
      · rw [roundTo53_a_large a k ha', roundTo53_a_large b k' hb', heq]
        exact nearest_mono _ _ a b hab

theorem floor_mul_mono (tb : Dbl) (n m : Nat) (h : n ≤ m) :
    ((Dbl.ofNat n).mul tb).floor ≤ ((Dbl.ofNat m).mul tb).floor := by
  unfold Dbl.mul Dbl.floor Dbl.ofNat
  simp only [roundTo53_k]
  apply Nat.div_le_div_right
  apply roundTo53_mono
  exact Nat.mul_le_mul_right _ (roundTo53_mono n m 0 0 h)

/-- Where the cast of line 395 is defined, the stamp is monotone in the native
timestamp. -/
theorem presentationTime_mono (tb : Dbl) (p q : Int) (a b : Nat) (h : p ≤ q)
    (ha : presentationTime tb p = some a) (hb : presentationTime tb q = some b) :
    a ≤ b := by
  unfold presentationTime at ha hb
  by_cases hp : 0 ≤ p
  · have hq : 0 ≤ q := le_trans hp h
    simp only [hp, hq, if_true] at ha hb
    split at ha
    · split at hb
      · simp only [Option.some.injEq] at ha hb
        rw [← ha, ← hb]
        exact floor_mul_mono tb _ _ (by omega)
      · simp at hb
    · simp at ha
  · simp only [hp, if_false] at ha
    split at ha
    · simp only [Option.some.injEq] at ha
      omega
    · simp at ha

/-- C6, as stated, fails: for the time base 1/24 and the native timestamp 195 the exact
value `195 * (1 / 24) * 1000` is 8125, and the double arithmetic of lines 291 and 395
stamps 8124. -/
theorem timestamp_conversion_counterexample :
    presentationTime (timeBase 1 24) 195 = some 8124 ∧ 195 * 1 * 1000 / 24 = 8125 ∧
    195 * 1 * 1000 % 24 = 0 := by
  decide

/-- C6 (amended). The stamp is the double product of the native timestamp and the scale
factor `time_base_` of line 291, rounded down. Whenever `1000 * num / den` is a whole
number `s` that `time_base_` holds exactly and `p * s < 2 ^ 53`, the stamp is exactly
`p * (num / den) * 1000`. -/
theorem timestamp_conversion_exact (num den p s : Nat) (hden : 0 < den)
    (hs : s * den = 1000 * num)
    (htb : (timeBase num den).a = s * 2 ^ (timeBase num den).k)
    (hp : p * s < 2 ^ 53) :
    presentationTime (timeBase num den) (p : Int) = some (p * num * 1000 / den) := by
  rw [presentationTime_whole _ s p htb hp]
  have : p * num * 1000 = p * s * den := by
    calc p * num * 1000 = p * (1000 * num) := by ring
      _ = p * (s * den) := by rw [hs]
      _ = p * s * den := by ring
  rw [this, Nat.mul_div_cancel _ hden]

/-- Witness of C6 (amended): time base (1, 25), scale factor 40, native timestamp 50,
stamp 2000. -/
theorem timestamp_conversion_exact_witness :
    (0 < 25 ∧ 40 * 25 = 1000 * 1 ∧
      (timeBase 1 25).a = 40 * 2 ^ (timeBase 1 25).k ∧ 50 * 40 < 2 ^ 53) ∧
    presentationTime (timeBase 1 25) ((50 : Nat) : Int) = some (50 * 1 * 1000 / 25) ∧
    50 * 1 * 1000 / 25 = 2000 :=
  ⟨⟨by decide, by decide, by decide, by decide⟩,
   timestamp_conversion_exact 1 25 50 40 (by decide) (by decide) (by decide) (by decide),
   by decide⟩

/-! ## Failed setup: teardown and later callbacks -/

/-- The constructor creates no GL object: whatever it is answered, the GL handles keep
the sentinel and both frame sequences are empty. -/
theorem constructor_gl_members (s : SetupScript) :
    ∃ fc cc vs, (OpenGLWidget.constructor s).widget =
      { OpenGLWidget.initial with
        format_context_ := fc, codec_context_ := cc, video_stream_ := vs } := by
  unfold OpenGLWidget.constructor
  simp only []
  repeat' split
  all_goals exact ⟨_, _, _, rfl⟩

/-- C9, as stated, fails: when no file is selected the constructor stops with every GL
handle at the sentinel `GL_INVALID_VALUE` (1281) and both sequences empty, and the
destructor then issues nine GL delete calls on the sentinel handles. -/
theorem teardown_counterexample :
    OpenGLWidget.constructor ⟨true, 0, [], 0, false, false, 0, 0⟩
      = ⟨OpenGLWidget.initial, [.getOpenFileName, .critical], some .no_file_selected⟩ ∧
    OpenGLWidget.initial.destructor
      = [.glDeleteShader 1281, .glDeleteShader 1281, .glDeleteTextures [1281, 1281, 1281],
         .glDeleteVertexArrays 1281, .glDeleteBuffers 1281, .glDeleteBuffers 1281,
         .glDeleteVertexArrays 1281, .glDeleteBuffers 1281, .glDeleteBuffers 1281,
         .avformat_free_context, .avcodec_free_context, .av_packet_free,
         .av_frame_free] := by
  constructor <;> decide

/-- C9 (amended). When the destructor runs on a widget as the constructor left it (every
GL handle still the sentinel, both frame sequences empty), in particular after a failed
setup, it issues no `glDeleteFramebuffers` and no per-frame `glDeleteTextures` call; it
does issue, unconditionally, the nine delete calls for the shader programs, the YUV
textures, the vertex arrays and the buffers, each on the sentinel handle. -/
theorem teardown_after_constructor (s : SetupScript) :
    (OpenGLWidget.constructor s).widget.destructor
      = [.glDeleteShader GL_INVALID_VALUE, .glDeleteShader GL_INVALID_VALUE,
         .glDeleteTextures [GL_INVALID_VALUE, GL_INVALID_VALUE, GL_INVALID_VALUE],
         .glDeleteVertexArrays GL_INVALID_VALUE, .glDeleteBuffers GL_INVALID_VALUE,
         .glDeleteBuffers GL_INVALID_VALUE, .glDeleteVertexArrays GL_INVALID_VALUE,
         .glDeleteBuffers GL_INVALID_VALUE, .glDeleteBuffers GL_INVALID_VALUE,
         .avformat_free_context, .avcodec_free_context, .av_packet_free,
         .av_frame_free] := by
  obtain ⟨fc, cc, vs, h⟩ := constructor_gl_members s
  rw [h]
  rfl

theorem currentFrame_lt_length (now : Nat) (fs : List FRAME) (i : Nat)
    (h : currentFrame now fs = some i) : i < fs.length := by
  rw [currentFrame_eq] at h
  have hle : (fs.takeWhile (due now)).length ≤ fs.length :=
    (List.takeWhile_sublist (due now)).length_le
  cases hk : (List.takeWhile (due now) fs).length with
  | zero => simp [hk] at h
  | succ k =>
    simp [hk] at h
    omega

theorem grab_eq_some (free : List FRAME) (f : FRAME) (rest : List FRAME)
    (h : grab free = some (f, rest)) : free = rest ++ [f] := by
  unfold grab at h
  cases hl : free.getLast? with
  | none => simp [hl] at h
  | some g =>
    simp [hl] at h
    obtain ⟨rfl, rfl⟩ := h
    exact (List.dropLast_append_getLast? g (by simp [hl])).symm

theorem grab_eq_none (free : List FRAME) (h : grab free = none) : free = [] := by
  unfold grab at h
  cases hl : free.getLast? with
  | none => exact List.getLast?_eq_none_iff.mp hl
  | some g => simp [hl] at h

/-- What lines 366-394 do, case by case. A frame is taken either from the end of the
free frames or, when there is none, from the end of the frames reclaimed; the step
gives up exactly when `free_frames_` is empty and `current_frame == frames_.end()`; and
it is undefined exactly when `free_frames_` is empty and
`current_frame == frames_.begin()`. -/
theorem acquireFrame_cases (now : Nat) (p : Pool) :
    match acquireFrame now p with
    | .frame f q =>
      (q.frames_ = p.frames_ ∧ p.free_frames_ = q.free_frames_ ++ [f]) ∨
        ∃ i, p.free_frames_ = [] ∧ currentFrame now p.frames_ = some i ∧
          q.frames_ = p.frames_.drop i ∧ p.frames_.take i = q.free_frames_ ++ [f]
    | .gave_up => p.free_frames_ = [] ∧ currentFrame now p.frames_ = none
    | .undefined => p.free_frames_ = [] ∧ currentFrame now p.frames_ = some 0 := by
  unfold acquireFrame
  by_cases he : p.free_frames_.isEmpty = true
  · have hnil : p.free_frames_ = [] := List.isEmpty_iff.mp he
    simp only [he, if_true]
    unfold reclaim
    cases hc : currentFrame now p.frames_ with
    | none => simp [hnil]
    | some i =>
      simp only [hnil, List.nil_append]
      cases hg : grab (List.take i p.frames_) with
      | none =>
        have htake := grab_eq_none _ hg
        have hlt := currentFrame_lt_length now p.frames_ i hc
        have : i = 0 := by
          rcases List.take_eq_nil_iff.mp htake with h | h
          · exact h
          · simp [h] at hlt
        simp [this]
      | some fr =>
        obtain ⟨f, rest⟩ := fr
        have := grab_eq_some _ f rest hg
        exact Or.inr ⟨i, trivial, rfl, rfl, this⟩
  · simp only [he]
    cases hg : grab p.free_frames_ with
    | none =>
      have := grab_eq_none _ hg
      simp [this] at he
    | some fr =>
      obtain ⟨f, rest⟩ := fr
      have := grab_eq_some _ f rest hg
      exact Or.inl ⟨rfl, this⟩

/-! ## The slots of the pool -/

theorem publish_handles (now t : Nat) (p q : Pool) (f : FRAME)
    (h : acquireFrame now p = .frame f q) : (publish f t q).handles.Perm p.handles := by
  have hc := acquireFrame_cases now p
  rw [h] at hc
  rcases hc with ⟨hfr, hfree⟩ | ⟨i, hfree, -, hfr, htake⟩
  · simp only [Pool.handles, publish, hfr, hfree, List.map_append, List.append_assoc]
    exact List.Perm.append_left _ List.perm_append_comm
  · have hsplit : p.frames_ = (q.free_frames_ ++ [f]) ++ p.frames_.drop i := by
      rw [← htake, List.take_append_drop]
    simp only [Pool.handles, publish, hfr, hfree, List.append_nil]
    conv_rhs => rw [hsplit]
    simp only [List.map_append, List.append_assoc]
    refine List.Perm.trans List.perm_append_comm ?_
    simp only [List.append_assoc]
    refine List.Perm.trans ?_ List.perm_append_comm
    simp only [List.append_assoc]
    exact List.Perm.append_left _ (List.Perm.trans List.perm_append_comm (by simp [FRAME.handles]))

theorem collectFrames_handles (stamp : Int → Option Nat) (now : Nat) (imgs : List Int)
    (p : Pool)
    (hex : (collectFrames stamp now imgs p).1 ≠ .left (.undefined .cast_out_of_range)) :
    (collectFrames stamp now imgs p).2.1.handles.Perm p.handles := by
  induction imgs generalizing p with
  | nil => exact List.Perm.refl _
  | cons pts rest ih =>
    unfold collectFrames at hex ⊢
    cases hs : acquireFrame now p with
    | gave_up => exact List.Perm.refl _
    | undefined => exact List.Perm.refl _
    | frame f q =>
      simp only [hs] at hex ⊢
      cases ht : stamp pts with
      | none => simp [ht] at hex
      | some t =>
        simp only [ht] at hex ⊢
        exact (ih (publish f t q) hex).trans (publish_handles now t p q f hs)

theorem decodeLoop_handles (stamp : Int → Option Nat) (video_stream_ : Option Nat)
    (now : Nat) (env : List PacketResp) (p : Pool) :
    (decodeLoop stamp video_stream_ now env p).exit ≠ .undefined .cast_out_of_range →
    (decodeLoop stamp video_stream_ now env p).pool.handles.Perm p.handles := by
  induction env generalizing p with
  | nil =>
    unfold decodeLoop
    split <;> exact fun _ => List.Perm.refl _
  | cons r env ih =>
    unfold decodeLoop
    split
    · split
      · exact fun _ => List.Perm.refl _
      · split
        · exact fun _ => List.Perm.refl _
        · split
          · exact ih p
          · split
            · exact fun _ => List.Perm.refl _
            · split
              · rename_i e q cs heq
                intro hex
                have hcol := collectFrames_handles stamp now r.images p
                  (by rw [heq]; intro h; exact hex (by simpa using h))
                rw [heq] at hcol
                exact hcol
              · rename_i q cs heq
                intro hex
                have hcol := collectFrames_handles stamp now r.images p
                  (by rw [heq]; simp)
                rw [heq] at hcol
                exact (ih q hex).trans hcol
    · exact fun _ => List.Perm.refl _

/-- In every run from the pool `initializeGL` builds in which every tick returned, the
pool consists of the five slots created: every handle pair occurs once, in one of the
two sequences. -/
theorem poolAfter_handles (stamp : Int → Option Nat) (video_stream_ : Option Nat)
    (handles : Fin 5 → Nat × Nat) (evs : List Event) (q : Pool)
    (hrun : poolAfter stamp video_stream_ evs (initialPool handles) = .ok q) :
    q.handles.Perm (List.ofFn handles) := by
  have hinit : (initialPool handles).handles.Perm (List.ofFn handles) := by
    simp [initialPool, Pool.handles, FRAME.handles, Function.comp_def]
  generalize initialPool handles = p at hinit hrun
  induction evs generalizing p with
  | nil =>
    simp only [poolAfter, Except.ok.injEq] at hrun
    rw [← hrun]
    exact hinit
  | cons e es ih =>
    cases e with
    | paint t => exact ih p hinit hrun
    | tick t env =>
      unfold poolAfter at hrun
      split at hrun
      · rename_i hret
        have hstep : (timerEvent stamp video_stream_ t env p).pool.handles.Perm
            (List.ofFn handles) :=
          (decodeLoop_handles stamp video_stream_ t env p (by
            have : (decodeLoop stamp video_stream_ t env p).exit = .returned := hret
            rw [this]; simp)).trans hinit
        exact ih _ hstep hrun
      · simp at hrun

/-- With pairwise distinct handles, after every run in which every tick returned the two
sequences together hold five slots and no slot occurs twice. -/
theorem poolAfter_five_distinct (stamp : Int → Option Nat) (video_stream_ : Option Nat)
    (handles : Fin 5 → Nat × Nat) (hinj : Function.Injective handles) (evs : List Event)
    (q : Pool) (hrun : poolAfter stamp video_stream_ evs (initialPool handles) = .ok q) :
    q.frames_.length + q.free_frames_.length = 5 ∧ q.handles.Nodup := by
  have hperm := poolAfter_handles stamp video_stream_ handles evs q hrun
  constructor
  · have := hperm.length_eq
    simpa [Pool.handles] using this
  · exact hperm.nodup_iff.mpr (List.nodup_ofFn.mpr hinj)

/-! ## Frames never regress -/

theorem paintSelect_some (now : Nat) (fs : List FRAME) (g : FRAME)
    (h : paintSelect now fs = some g) : g ∈ fs ∧ g.time_ ≤ now := by
  rw [paintSelect_eq] at h
  have hmem : g ∈ fs.takeWhile (due now) := List.mem_of_getLast?_eq_some h
  refine ⟨(List.takeWhile_sublist (due now)).subset hmem, ?_⟩
  have := List.mem_takeWhile_imp hmem
  simpa [due] using this

theorem ascending_le_getLast (fs : List FRAME) (h : Ascending fs) (f g : FRAME)
    (hf : f ∈ fs) (hg : fs.getLast? = some g) : f.time_ ≤ g.time_ := by
  have hsplit : fs.dropLast ++ [g] = fs := List.dropLast_append_getLast? g (by simp [hg])
  rw [← hsplit] at h hf
  rcases List.mem_append.mp hf with hm | hm
  · exact (List.pairwise_append.mp h).2.2 f hm g (by simp)
  · simp at hm
    rw [hm]

/-- In an ascending ready sequence holding a frame `f` that is due, the scan selects a
frame at least as late as `f`. -/
theorem select_floor (now : Nat) (fs : List FRAME) (h : Ascending fs) (f : FRAME)
    (hf : f ∈ fs) (hdue : f.time_ ≤ now) :
    ∃ g, paintSelect now fs = some g ∧ f.time_ ≤ g.time_ := by
  rw [paintSelect_eq, takeWhile_due_eq_filter now fs h]
  have hmem : f ∈ fs.filter (due now) := List.mem_filter.mpr ⟨hf, by simp [due, hdue]⟩
  have hne : fs.filter (due now) ≠ [] := List.ne_nil_of_mem hmem
  have hasc : Ascending (fs.filter (due now)) := List.Pairwise.filter _ h
  refine ⟨(fs.filter (due now)).getLast hne, List.getLast?_eq_getLast _ hne, ?_⟩
  exact ascending_le_getLast _ hasc f _ hmem (List.getLast?_eq_getLast _ hne)

theorem head_drop_currentFrame (now : Nat) (fs : List FRAME) (i : Nat)
    (h : currentFrame now fs = some i) : (fs.drop i).head? = paintSelect now fs := by
  unfold paintSelect
  rw [h, List.head?_drop]

theorem within_mono (L T now : Nat) (S S' : List Nat) (p : Pool) (h : Within L T S p)
    (hT : T ≤ now) (hS : ∀ t ∈ S', t ∈ S) : Within L now S' p := by
  obtain ⟨ha, hfl, hb⟩ := h
  refine ⟨ha, ?_, fun f hf t ht => hb f hf t (hS t ht)⟩
  rcases hfl with h0 | ⟨f, hf, hL, hle⟩
  · exact Or.inl h0
  · exact Or.inr ⟨f, hf, hL, le_trans hle hT⟩

theorem acquireFrame_within (L now : Nat) (S : List Nat) (p q : Pool) (f : FRAME)
    (h : Within L now S p) (hacq : acquireFrame now p = .frame f q) :
    Within L now S q := by
  obtain ⟨ha, hfl, hb⟩ := h
  have hc := acquireFrame_cases now p
  rw [hacq] at hc
  have hsub : q.frames_.Sublist p.frames_ := by
    rcases hc with ⟨hfr, -⟩ | ⟨i, -, -, hfr, -⟩
    · rw [hfr]
    · rw [hfr]; exact List.drop_sublist i _
  refine ⟨List.Pairwise.sublist hsub ha, ?_, fun a hA u hu => hb a (hsub.subset hA) u hu⟩
  rcases hfl with h0 | ⟨g, hg, hL, hle⟩
  · exact Or.inl h0
  · rcases hc with ⟨hfr, -⟩ | ⟨i, -, hcur, hfr, -⟩
    · exact Or.inr ⟨g, by rw [hfr]; exact hg, hL, hle⟩
    · obtain ⟨g', hsel, hge⟩ := select_floor now p.frames_ ha g hg hle
      have hhead := head_drop_currentFrame now p.frames_ i hcur
      rw [hsel] at hhead
      have hmem : g' ∈ p.frames_.drop i := List.mem_of_mem_head? (by rw [hhead]; rfl)
      exact Or.inr ⟨g', by rw [hfr]; exact hmem, le_trans hL hge,
        (paintSelect_some now _ g' hsel).2⟩

theorem publish_within (L now t : Nat) (S : List Nat) (q : Pool) (f : FRAME)
    (h : Within L now (t :: S) q) (hS : (t :: S).Pairwise (· ≤ ·)) :
    Within L now S (publish f t q) := by
  obtain ⟨ha, hfl, hb⟩ := h
  refine ⟨?_, ?_, ?_⟩
  · show Ascending (q.frames_ ++ [{ f with time_ := t }])
    unfold Ascending
    rw [List.pairwise_append]
    refine ⟨ha, by simp, ?_⟩
    intro a hA b hB
    simp at hB
    rw [hB]
    exact hb a hA t (by simp)
  · rcases hfl with h0 | ⟨g, hg, hL, hle⟩
    · exact Or.inl h0
    · exact Or.inr ⟨g, List.mem_append_left _ hg, hL, hle⟩
  · intro a hA u hu
    rcases List.mem_append.mp hA with hm | hm
    · exact hb a hm u (List.mem_cons_of_mem _ hu)
    · simp at hm
      rw [hm]
      exact (List.pairwise_cons.mp hS).1 u hu

theorem collectFrames_within (stamp : Int → Option Nat) (L now : Nat) (S : List Nat)
    (imgs : List Int) (p : Pool)
    (h : Within L now (imgs.filterMap stamp ++ S) p)
    (hS : (imgs.filterMap stamp ++ S).Pairwise (· ≤ ·)) :
    Within L now S (collectFrames stamp now imgs p).2.1 := by
  induction imgs generalizing p with
  | nil => simpa [collectFrames] using h
  | cons pts rest ih =>
    have hp : Within L now S p :=
      within_mono L now now _ S p h (le_refl _) (by intro t ht; simp [ht])
    unfold collectFrames
    cases hs : acquireFrame now p with
    | gave_up => exact hp
    | undefined => exact hp
    | frame f q =>
      simp only []
      cases ht : stamp pts with
      | none => exact acquireFrame_within L now S p q f hp hs
      | some t =>
        simp only [List.filterMap_cons, ht, List.cons_append] at h hS
        have hq := acquireFrame_within L now _ p q f h hs
        exact ih (publish f t q) (publish_within L now t _ q f hq hS)
          (List.pairwise_cons.mp hS).2

theorem decodeLoop_within (stamp : Int → Option Nat) (video_stream_ : Option Nat)
    (L now : Nat) (S : List Nat) (env : List PacketResp) (p : Pool)
    (h : Within L now ((env.flatMap PacketResp.images).filterMap stamp ++ S) p)
    (hS : ((env.flatMap PacketResp.images).filterMap stamp ++ S).Pairwise (· ≤ ·)) :
    Within L now S (decodeLoop stamp video_stream_ now env p).pool := by
  induction env generalizing p with
  | nil =>
    have : Within L now S p := by simpa using h
    unfold decodeLoop
    split <;> exact this
  | cons r env ih =>
    simp only [List.flatMap_cons, List.filterMap_append, List.append_assoc] at h hS
    have hp : Within L now S p :=
      within_mono L now now _ S p h (le_refl _) (by intro t ht; simp [ht])
    have hskip : Within L now ((env.flatMap PacketResp.images).filterMap stamp ++ S) p :=
      within_mono L now now _ _ p h (le_refl _) (by intro t ht; simp [ht])
    have hSskip := (List.pairwise_append.mp hS).2.1
    unfold decodeLoop
    split
    · split
      · exact hp
      · split
        · exact hp
        · split
          · exact ih p hskip hSskip
          · split
            · exact hp
            · have hcol := collectFrames_within stamp L now _ r.images p h hS
              split
              · rename_i e q cs heq
                rw [heq] at hcol
                exact within_mono L now now _ S q hcol (le_refl _) (by intro t ht; simp [ht])
              · rename_i q cs heq
                rw [heq] at hcol
                exact ih q hcol hSskip
    · exact hp

theorem paints_within (stamp : Int → Option Nat) (video_stream_ : Option Nat)
    (evs : List Event) (p : Pool) (L T : Nat) (ps : List (Nat × Option FRAME))
    (hrun : paints stamp video_stream_ evs p = .ok ps)
    (h : Within L T ((evs.flatMap Event.images).filterMap stamp) p)
    (hclock : (evs.map Event.clock).Pairwise (· ≤ ·))
    (hT : ∀ c ∈ evs.map Event.clock, T ≤ c)
    (hS : ((evs.flatMap Event.images).filterMap stamp).Pairwise (· ≤ ·)) :
    (∀ x ∈ ps, ∀ f, x.2 = some f → f.time_ ≤ x.1 ∧ L ≤ f.time_) ∧
    ((ps.filterMap (·.2)).map FRAME.time_).Pairwise (· ≤ ·) := by
  induction evs generalizing p L T ps with
  | nil =>
    simp only [paints, Except.ok.injEq] at hrun
    subst hrun
    simp
  | cons e es ih =>
    have hTe : T ≤ e.clock := hT e.clock (by simp)
    have hclock' : (es.map Event.clock).Pairwise (· ≤ ·) := by
      simp only [List.map_cons] at hclock
      exact (List.pairwise_cons.mp hclock).2
    have hT' : ∀ c ∈ es.map Event.clock, e.clock ≤ c := by
      simp only [List.map_cons] at hclock
      exact (List.pairwise_cons.mp hclock).1
    cases e with
    | paint t =>
      simp only [Event.clock] at hTe hT'
      have hw : Within L t ((es.flatMap Event.images).filterMap stamp) p := by
        refine within_mono L T t _ _ p h hTe ?_
        intro u hu
        simpa [List.flatMap_cons, Event.images] using hu
      have hS' : ((es.flatMap Event.images).filterMap stamp).Pairwise (· ≤ ·) := by
        simpa [List.flatMap_cons, Event.images] using hS
      unfold paints at hrun
      cases hrest : paints stamp video_stream_ es p with
      | error e => simp [hrest] at hrun
      | ok ps' =>
        simp only [hrest, Except.ok.injEq] at hrun
        subst hrun
        cases hsel : paintSelect t p.frames_ with
        | none =>
          obtain ⟨h1, h2⟩ := ih p L t ps' hrest hw hclock' hT' hS'
          constructor
          · intro x hx f hf
            simp only [List.mem_cons] at hx
            rcases hx with rfl | hx
            · simp at hf
            · exact h1 x hx f hf
          · simpa using h2
        | some g =>
          obtain ⟨hgmem, hgle⟩ := paintSelect_some t p.frames_ g hsel
          have hLg : L ≤ g.time_ := by
            rcases hw.2.1 with h0 | ⟨f, hf, hL, hle⟩
            · omega
            · obtain ⟨g', hsel', hge⟩ := select_floor t p.frames_ hw.1 f hf hle
              rw [hsel] at hsel'
              cases hsel'
              exact le_trans hL hge
          have hw' : Within g.time_ t ((es.flatMap Event.images).filterMap stamp) p :=
            ⟨hw.1, Or.inr ⟨g, hgmem, le_refl _, hgle⟩, hw.2.2⟩
          obtain ⟨h1, h2⟩ := ih p g.time_ t ps' hrest hw' hclock' hT' hS'
          constructor
          · intro x hx f hf
            simp only [List.mem_cons] at hx
            rcases hx with rfl | hx
            · simp only [Option.some.injEq] at hf
              subst hf
              exact ⟨hgle, hLg⟩
            · exact ⟨(h1 x hx f hf).1, le_trans hLg (h1 x hx f hf).2⟩
          · simp only [List.filterMap_cons, List.map_cons]
            rw [List.pairwise_cons]
            refine ⟨?_, h2⟩
            intro u hu
            simp only [List.mem_map, List.mem_filterMap] at hu
            obtain ⟨f, ⟨x, hx, hxf⟩, rfl⟩ := hu
            exact (h1 x hx f hxf).2
    | tick t env =>
      simp only [Event.clock] at hTe hT'
      simp only [List.flatMap_cons, Event.images, List.filterMap_append] at h hS
      have hw : Within L t ((env.flatMap PacketResp.images).filterMap stamp ++
          (es.flatMap Event.images).filterMap stamp) p :=
        within_mono L T t _ _ p h hTe (fun u hu => hu)
      have hq := decodeLoop_within stamp video_stream_ L t _ env p hw hS
      have hS' := (List.pairwise_append.mp hS).2.1
      unfold paints at hrun
      split at hrun
      · exact ih _ L t ps hrun hq hclock' hT' hS'
      · simp at hrun

/-- C5, as stated, fails: in `overflowRun` the clock readings and the native timestamps
of the decoder are non-decreasing, and the cast of line 395 is given `2 * 10 ^ 19`, which
no `uint64_t` holds: the second tick is undefined there. With the 0 that an x86-64 build
stores for that cast, the two paints select first the frame timed 1000 and then the
frame timed 0. In `exhaustedRun`, with the same two conditions met, the second tick
reaches `free_frames_.back()` on the empty vector and the paint after it is not
defined. -/
theorem frames_regress_counterexample :
    (overflowRun.map Event.clock).Pairwise (· ≤ ·) ∧
    (overflowRun.flatMap Event.images).Pairwise (· ≤ ·) ∧
    presentationTime (timeBase 1 1) 1 = some 1000 ∧
    presentationTime (timeBase 1 1) 20000000000000000 = none ∧
    paints (presentationTime (timeBase 1 1)) (some 0) overflowRun
        (initialPool (fun i => (i.val + 1, i.val + 11)))
      = .error (.undefined .cast_out_of_range) ∧
    paints (storedTime 0 (timeBase 1 1)) (some 0) overflowRun
        (initialPool (fun i => (i.val + 1, i.val + 11)))
      = .ok [(1000, some ⟨5, 15, 1000⟩), (1001, some ⟨4, 14, 0⟩)] ∧
    (exhaustedRun.map Event.clock).Pairwise (· ≤ ·) ∧
    (exhaustedRun.flatMap Event.images).Pairwise (· ≤ ·) ∧
    paints (presentationTime (timeBase 1 25)) (some 0) exhaustedRun
        (initialPool (fun i => (i.val + 1, i.val + 11)))
      = .error (.undefined .back_of_empty_free_frames) := by
  refine ⟨by decide, by decide, by decide, ?_, ?_, ?_, by decide, by decide, by decide⟩
  · set_option maxRecDepth 100000 in decide
  · set_option maxRecDepth 100000 in decide
  · set_option maxRecDepth 100000 in decide

/-- C5 (amended). In every run of ticks and paints from the pool `initializeGL` builds in
which every tick returns (so that no tick reaches a cast of line 395 out of the range of
`uint64_t`, nor `free_frames_.back()` on an empty vector), if the clock readings of the
successive callbacks are non-decreasing and the native timestamps of the images the
decoder delivers are non-decreasing, then every frame a paint selects has a time `≤`
that paint's clock reading, and the times of the selected frames are non-decreasing
from paint to paint, whatever ticks (decode steps and reclaims) run in between. -/
theorem frames_never_regress (time_base_ : Dbl) (video_stream_ : Option Nat)
    (handles : Fin 5 → Nat × Nat) (evs : List Event) (ps : List (Nat × Option FRAME))
    (hrun : paints (presentationTime time_base_) video_stream_ evs (initialPool handles)
      = .ok ps)
    (hclock : (evs.map Event.clock).Pairwise (· ≤ ·))
    (hpts : (evs.flatMap Event.images).Pairwise (· ≤ ·)) :
    (∀ x ∈ ps, ∀ f, x.2 = some f → f.time_ ≤ x.1) ∧
    ((ps.filterMap (·.2)).map FRAME.time_).Pairwise (· ≤ ·) := by
  have hstamps : ((evs.flatMap Event.images).filterMap
      (presentationTime time_base_)).Pairwise (· ≤ ·) :=
    List.Pairwise.filterMap _
      (fun p q hpq a ha b hb => presentationTime_mono time_base_ p q a b hpq ha hb) hpts
  have hw : Within 0 0 ((evs.flatMap Event.images).filterMap (presentationTime time_base_))
      (initialPool handles) :=
    ⟨by simp [Ascending, initialPool], Or.inl rfl, by simp [initialPool]⟩
  obtain ⟨h1, h2⟩ := paints_within (presentationTime time_base_) video_stream_ evs
    (initialPool handles) 0 0 ps hrun hw hclock (fun c _ => Nat.zero_le c) hstamps
  exact ⟨fun x hx f hf => (h1 x hx f hf).1, h2⟩

/-- Witness of C5 (amended): the sample run; every tick returns and the paints select
the frames timed 0, 0, 40 and 240. -/
theorem frames_never_regress_witness :
    paints (presentationTime (timeBase 1 25)) (some 0) sampleRun
        (initialPool (fun i => (i.val + 1, i.val + 11)))
      = .ok [(5, some ⟨5, 15, 0⟩), (20, some ⟨5, 15, 0⟩), (50, some ⟨4, 14, 40⟩),
         (250, some ⟨3, 13, 240⟩)] ∧
    (sampleRun.map Event.clock).Pairwise (· ≤ ·) ∧
    (sampleRun.flatMap Event.images).Pairwise (· ≤ ·) ∧
    ((∀ x ∈ [(5, some (FRAME.mk 5 15 0)), (20, some ⟨5, 15, 0⟩), (50, some ⟨4, 14, 40⟩),
        (250, some ⟨3, 13, 240⟩)], ∀ f, x.2 = some f → f.time_ ≤ x.1) ∧
      (([(5, some (FRAME.mk 5 15 0)), (20, some ⟨5, 15, 0⟩), (50, some ⟨4, 14, 40⟩),
        (250, some ⟨3, 13, 240⟩)].filterMap (·.2)).map FRAME.time_).Pairwise (· ≤ ·)) :=
  ⟨by decide, by decide, by decide,
   frames_never_regress (timeBase 1 25) (some 0) (fun i => (i.val + 1, i.val + 11))
     sampleRun _ (by decide) (by decide) (by decide)⟩

end QtPlayer
